import Mathlib

/-!
Verification development for the pre-market concentrated-liquidity AMM
(`LiquidityPool`, `PriceCalculator`, `Token`, multi-range design).

Numeric embedding: the TypeScript source computes with floating-point doubles
and `Math.sqrt`.  Here every quantity is an exact rational, and every *price*
argument `P` is represented by its exact square root `s` (so `P = s * s` and
`Math.sqrt P = |s|`).  A position therefore stores `lowerSqrtBound`/
`upperSqrtBound` with `lowerPriceBound = lowerSqrtBound * lowerSqrtBound`,
exactly the value the source stores.  All comparisons the source performs on
prices are performed here on the squared values, so the control flow is the
source's control flow restricted to rational-square prices.

The ledger (`Token`) keeps balances as a total function from account names to
rationals; a JavaScript `Map` lookup with `|| 0` is that function.  The
`name`/`symbol`/`decimals` fields feed only `console.log` strings and are
omitted.  `_feePercentage` is initialised to `0.003` and never written, so it
is embedded as the constant `feePercentage`.  JavaScript `Array.prototype.sort`
is a stable sort, embedded as `List.insertionSort` (stable) with the same
comparator.  A thrown exception leaves all in-place mutations performed so far
visible to the caller, so every operation returns the (possibly mutated) state
alongside its `Except` result.
-/

namespace PreMarketAMM

/-- Error taxonomy of the pool and calculator operations. -/
inductive AMMError where
  | invalidRange
  | nonPositiveAmount
  | insufficientBalance
  | settlementPhaseViolation
  | alreadyInSettlement
  | noLiquidityAvailable
deriving DecidableEq, Repr

/-- Ledger token: per-account balances and a total supply (Token.ts). -/
structure Token where
  balances : String → ℚ
  totalSupply : ℚ

/-- Source `balanceOf`: `this._balances.get(account) || 0`. -/
def Token.balanceOf (t : Token) (account : String) : ℚ :=
  t.balances account

/-- Source `this._balances.set(account, v)`. -/
def Token.setBalance (t : Token) (account : String) (v : ℚ) : Token :=
  { t with balances := fun a => if a = account then v else t.balances a }

/-- Source `mint(to, amount)`: fails (returns false) if `amount <= 0`. -/
def Token.mint (t : Token) (toAcc : String) (amount : ℚ) : Bool × Token :=
  if amount ≤ 0 then (false, t)
  else (true,
    { balances := ((t.setBalance toAcc (t.balanceOf toAcc + amount))).balances,
      totalSupply := t.totalSupply + amount })

/-- Source `transfer(from, to, amount)`: fails (returns false) if `amount <= 0` or the
source balance is insufficient; the destination balance is read after the
source update, exactly as in the source. -/
def Token.transfer (t : Token) (src dst : String) (amount : ℚ) : Bool × Token :=
  if amount ≤ 0 ∨ t.balanceOf src < amount then (false, t)
  else
    let t₁ := t.setBalance src (t.balanceOf src - amount)
    (true, t₁.setBalance dst (t₁.balanceOf dst + amount))

/-- Constant `_feePercentage = 0.003`, initialised once and never mutated. -/
def feePercentage : ℚ := 3 / 1000

/-- Record `LPPosition`; price bounds are stored through their square roots
(`lowerPriceBound = lowerSqrtBound * lowerSqrtBound`). -/
structure LPPosition where
  id : String
  owner : String
  liquidity : ℚ
  lowerSqrtBound : ℚ
  upperSqrtBound : ℚ
  collateralAmount : ℚ
  initialPreTokenAmount : ℚ

/-- Field `lowerPriceBound` (Pa) as the source stores it. -/
def LPPosition.lowerPriceBound (p : LPPosition) : ℚ :=
  p.lowerSqrtBound * p.lowerSqrtBound

/-- Field `upperPriceBound` (Pb) as the source stores it. -/
def LPPosition.upperPriceBound (p : LPPosition) : ℚ :=
  p.upperSqrtBound * p.upperSqrtBound

/-- PriceCalculator.calculateLiquidity: `L = x / (1/√Pa - 1/√Pb)` guarded by
`pa >= pb || pa <= 0 || pb <= 0`; `sa`, `sb` are the square roots of `pa`,
`pb`. -/
def calculateLiquidity (x sa sb : ℚ) : Except AMMError ℚ :=
  if sa * sa ≥ sb * sb ∨ sa * sa ≤ 0 ∨ sb * sb ≤ 0 then .error .invalidRange
  else .ok (x / (1 / |sa| - 1 / |sb|))

/-- PriceCalculator.calculatePreTokenAmount:
`y = x · (√Pb - √Pa) / (1/√Pa - 1/√Pb)` with the same range guard. -/
def calculatePreTokenAmount (x sa sb : ℚ) : Except AMMError ℚ :=
  if sa * sa ≥ sb * sb ∨ sa * sa ≤ 0 ∨ sb * sb ≤ 0 then .error .invalidRange
  else .ok (x * (|sb| - |sa|) / (1 / |sa| - 1 / |sb|))

/-- PriceCalculator.calculateBaseAmount:
`x = y · (1/√Pa - 1/√Pb) / (√Pb - √Pa)` with the same range guard. -/
def calculateBaseAmount (y sa sb : ℚ) : Except AMMError ℚ :=
  if sa * sa ≥ sb * sb ∨ sa * sa ≤ 0 ∨ sb * sb ≤ 0 then .error .invalidRange
  else .ok (y * (1 / |sa| - 1 / |sb|) / (|sb| - |sa|))

/-- PriceCalculator.calculateCurrentPrice: returns `Pa` when
`preTokenReserve == 0`, `Pb` when `baseReserve == 0`, before any range
validation; otherwise derives `L` from `baseReserve` (which validates the
range) and solves `√P = preTokenReserve / L + √Pa`. -/
def calculateCurrentPrice (baseReserve preTokenReserve sa sb : ℚ) :
    Except AMMError ℚ :=
  if preTokenReserve = 0 then .ok (sa * sa)
  else if baseReserve = 0 then .ok (sb * sb)
  else
    match calculateLiquidity baseReserve sa sb with
    | .error e => .error e
    | .ok liquidity =>
      .ok ((preTokenReserve / liquidity + |sa|) * (preTokenReserve / liquidity + |sa|))

/-- LiquidityPool state (multi-range pool of LiquidityPool.ts). -/
structure LiquidityPool where
  baseToken : Token
  preToken : Token
  baseReserve : ℚ
  preTokenReserve : ℚ
  liquidity : ℚ
  lpPositions : List LPPosition
  isSettlementPhase : Bool
  realToken : Option Token
  nextPositionId : Nat
  currentSqrtPrice : ℚ
  initialPriceSet : Bool

/-- LiquidityPool constructor: `_currentSqrtPrice = initialPrice ?
Math.sqrt(initialPrice) : 0` (JavaScript truthiness: price `0` is falsy) and
`_initialPriceSet = initialPrice !== undefined`.  `initialSqrtPrice` is the
square root of the optional `initialPrice` argument. -/
def mkLiquidityPool (baseToken preToken : Token) (initialSqrtPrice : Option ℚ) :
    LiquidityPool :=
  { baseToken := baseToken
    preToken := preToken
    baseReserve := 0
    preTokenReserve := 0
    liquidity := 0
    lpPositions := []
    isSettlementPhase := false
    realToken := none
    nextPositionId := 1
    currentSqrtPrice :=
      match initialSqrtPrice with
      | some s => if s * s = 0 then 0 else |s|
      | none => 0
    initialPriceSet := initialSqrtPrice.isSome }

/-- Source `getCurrentPrice()`: `currentSqrtPrice²`. -/
def getCurrentPrice (s : LiquidityPool) : ℚ :=
  s.currentSqrtPrice * s.currentSqrtPrice

/-- Source `addLiquidity(owner, baseAmount, pa, pb)`; `sa`, `sb` are the square roots
of `pa`, `pb`.  Guard order, transfer of `2·baseAmount`, reserve updates,
mint, position insertion and the first-position price initialisation follow
the source line by line. -/
def addLiquidity (owner : String) (baseAmount sa sb : ℚ) (s : LiquidityPool) :
    Except AMMError String × LiquidityPool :=
  if s.isSettlementPhase then (.error .settlementPhaseViolation, s)
  else if baseAmount ≤ 0 then (.error .nonPositiveAmount, s)
  else if s.baseToken.balanceOf owner < baseAmount * 2 then
    (.error .insufficientBalance, s)
  else
    match calculatePreTokenAmount baseAmount sa sb,
          calculateLiquidity baseAmount sa sb with
    | .ok preTokenAmount, .ok liquidityAmount =>
      (.ok ("LP-" ++ toString s.nextPositionId),
        { s with
          baseToken := (s.baseToken.transfer owner "POOL" (baseAmount * 2)).2
          preToken := (s.preToken.mint "POOL" preTokenAmount).2
          baseReserve := s.baseReserve + baseAmount
          preTokenReserve := s.preTokenReserve + preTokenAmount
          liquidity := s.liquidity + liquidityAmount
          lpPositions := s.lpPositions ++
            [{ id := "LP-" ++ toString s.nextPositionId
               owner := owner
               liquidity := liquidityAmount
               lowerSqrtBound := sa
               upperSqrtBound := sb
               collateralAmount := baseAmount
               initialPreTokenAmount := preTokenAmount }]
          nextPositionId := s.nextPositionId + 1
          currentSqrtPrice :=
            if s.initialPriceSet = false ∧ s.lpPositions.length + 1 = 1
            then |sa| else s.currentSqrtPrice
          initialPriceSet :=
            if s.initialPriceSet = false ∧ s.lpPositions.length + 1 = 1
            then true else s.initialPriceSet })
    | .error e, _ => (.error e, s)
    | _, .error e => (.error e, s)

/-- Positions sorted ascending by `lowerPriceBound`:
`Array.from(values()).sort((a, b) => a.lowerPriceBound - b.lowerPriceBound)`
(stable, insertion order on ties). -/
def sortByLowerAsc (ps : List LPPosition) : List LPPosition :=
  ps.insertionSort (fun a b => a.lowerPriceBound ≤ b.lowerPriceBound)

/-- Positions sorted descending by `upperPriceBound`:
`sort((a, b) => b.upperPriceBound - a.upperPriceBound)` (stable). -/
def sortByUpperDesc (ps : List LPPosition) : List LPPosition :=
  ps.insertionSort (fun a b => b.upperPriceBound ≤ a.upperPriceBound)

/-- Source `findIndex` rendered as the suffix starting at the first element
satisfying the predicate (the loops iterate from that index to the end). -/
def findFirstSuffix (pred : LPPosition → Prop) [DecidablePred pred] :
    List LPPosition → Option (List LPPosition)
  | [] => none
  | p :: rest => if pred p then some (p :: rest) else findFirstSuffix pred rest

/-- Buy-side position lookup: first position whose price range contains the
current price, else first position with `lowerPriceBound > currentPrice`,
else `NoLiquidityAvailable` (`none`). -/
def findStartBuy (ps : List LPPosition) (price : ℚ) : Option (List LPPosition) :=
  match findFirstSuffix
      (fun p => p.lowerPriceBound ≤ price ∧ price ≤ p.upperPriceBound) ps with
  | some qs => some qs
  | none => findFirstSuffix (fun p => price < p.lowerPriceBound) ps

/-- Sell-side position lookup: first position containing the current price,
else first position with `upperPriceBound < currentPrice`. -/
def findStartSell (ps : List LPPosition) (price : ℚ) : Option (List LPPosition) :=
  match findFirstSuffix
      (fun p => p.lowerPriceBound ≤ price ∧ price ≤ p.upperPriceBound) ps with
  | some qs => some qs
  | none => findFirstSuffix (fun p => p.upperPriceBound < price) ps

/-- The `while` loop of `swapBaseForPreToken`: returns
`(remainingBaseAmount, totalPreTokenOutput, newSqrtPrice)`.  Each iteration
clamps the running sqrt price up to `√lowerPriceBound`, targets
`newSqrtPrice + remaining / L` clamped to `√upperPriceBound`, and stops early
when the range is not exhausted. -/
def buyLoop : ℚ → ℚ → ℚ → List LPPosition → ℚ × ℚ × ℚ
  | remaining, totalOut, newSqrt, [] => (remaining, totalOut, newSqrt)
  | remaining, totalOut, newSqrt, p :: rest =>
    if remaining ≤ 0 then (remaining, totalOut, newSqrt)
    else
      let lowerSqrt := |p.lowerSqrtBound|
      let upperSqrt := |p.upperSqrtBound|
      let clamped := max newSqrt lowerSqrt
      let effective := min (clamped + remaining / p.liquidity) upperSqrt
      let baseUsed := p.liquidity * (effective - clamped)
      let preOut := p.liquidity * (1 / clamped - 1 / effective)
      if effective < upperSqrt then
        (remaining - baseUsed, totalOut + preOut, effective)
      else buyLoop (remaining - baseUsed) (totalOut + preOut) effective rest

/-- The `while` loop of `swapPreTokenForBase`: returns
`(remainingPreTokenAmount, totalBaseTokenOutput, newSqrtPrice)`.  Each
iteration clamps the running sqrt price down to `√upperPriceBound`, targets
`1 / (remaining / L + 1 / newSqrtPrice)` clamped to `√lowerPriceBound`, and
stops early when the range is not exhausted.  `preUsed` reproduces the
source expression `L * (1/newSqrtPrice - 1/effectiveNewSqrtPrice)` verbatim. -/
def sellLoop : ℚ → ℚ → ℚ → List LPPosition → ℚ × ℚ × ℚ
  | remaining, totalOut, newSqrt, [] => (remaining, totalOut, newSqrt)
  | remaining, totalOut, newSqrt, p :: rest =>
    if remaining ≤ 0 then (remaining, totalOut, newSqrt)
    else
      let lowerSqrt := |p.lowerSqrtBound|
      let upperSqrt := |p.upperSqrtBound|
      let clamped := min newSqrt upperSqrt
      let divisor := remaining / p.liquidity + 1 / clamped
      let minNew := if 0 < divisor then 1 / divisor else 0
      let effective := max minNew lowerSqrt
      let preUsed := p.liquidity * (1 / clamped - 1 / effective)
      let baseOut := p.liquidity * (clamped - effective)
      if lowerSqrt < effective then
        (remaining - preUsed, totalOut + baseOut, effective)
      else sellLoop (remaining - preUsed) (totalOut + baseOut) effective rest

/-- Source `swapBaseForPreToken(trader, baseAmount)`.  Note that the source transfers
the full input from the trader to `POOL` before looking up liquidity, so the
`NoLiquidityAvailable` failure keeps that transfer.  The running sqrt price
starts at `Math.sqrt(getCurrentPrice())`, i.e. `|currentSqrtPrice|`. -/
def swapBaseForPreToken (trader : String) (baseAmount : ℚ) (s : LiquidityPool) :
    Except AMMError ℚ × LiquidityPool :=
  if s.isSettlementPhase then (.error .settlementPhaseViolation, s)
  else if baseAmount ≤ 0 then (.error .nonPositiveAmount, s)
  else if s.baseToken.balanceOf trader < baseAmount then
    (.error .insufficientBalance, s)
  else
    match findStartBuy (sortByLowerAsc s.lpPositions) (getCurrentPrice s) with
    | none =>
      (.error .noLiquidityAvailable,
        { s with baseToken := (s.baseToken.transfer trader "POOL" baseAmount).2 })
    | some qs =>
      let r := buyLoop (baseAmount - baseAmount * feePercentage) 0
        |s.currentSqrtPrice| qs
      let tb := (s.baseToken.transfer trader "POOL" baseAmount).2
      (.ok r.2.1,
        { s with
          baseToken := if 0 < r.1 then (tb.transfer "POOL" trader r.1).2 else tb
          preToken := (s.preToken.transfer "POOL" trader r.2.1).2
          baseReserve :=
            s.baseReserve + ((baseAmount - baseAmount * feePercentage) - r.1)
          preTokenReserve := s.preTokenReserve - r.2.1
          currentSqrtPrice := r.2.2 })

/-- Source `swapPreTokenForBase(trader, preTokenAmount)`.  The input is transferred
to `POOL` before the liquidity lookup; the fee is taken from the output. -/
def swapPreTokenForBase (trader : String) (preTokenAmount : ℚ)
    (s : LiquidityPool) : Except AMMError ℚ × LiquidityPool :=
  if s.isSettlementPhase then (.error .settlementPhaseViolation, s)
  else if preTokenAmount ≤ 0 then (.error .nonPositiveAmount, s)
  else if s.preToken.balanceOf trader < preTokenAmount then
    (.error .insufficientBalance, s)
  else
    match findStartSell (sortByUpperDesc s.lpPositions) (getCurrentPrice s) with
    | none =>
      (.error .noLiquidityAvailable,
        { s with preToken := (s.preToken.transfer trader "POOL" preTokenAmount).2 })
    | some qs =>
      let r := sellLoop preTokenAmount 0 |s.currentSqrtPrice| qs
      let tp := (s.preToken.transfer trader "POOL" preTokenAmount).2
      (.ok (r.2.1 - r.2.1 * feePercentage),
        { s with
          preToken := if 0 < r.1 then (tp.transfer "POOL" trader r.1).2 else tp
          baseToken :=
            (s.baseToken.transfer "POOL" trader (r.2.1 - r.2.1 * feePercentage)).2
          preTokenReserve := s.preTokenReserve + (preTokenAmount - r.1)
          baseReserve := s.baseReserve - r.2.1
          currentSqrtPrice := r.2.2 })

/-- Source `enterSettlementPhase(realToken)`: legal only once. -/
def enterSettlementPhase (realToken : Token) (s : LiquidityPool) :
    Except AMMError Unit × LiquidityPool :=
  if s.isSettlementPhase then (.error .alreadyInSettlement, s)
  else (.ok (), { s with isSettlementPhase := true, realToken := some realToken })

/-- The mutating pool operations, for quantifying over call sequences. -/
inductive PoolOp where
  | addLiquidity (owner : String) (baseAmount sa sb : ℚ)
  | swapBaseForPreToken (trader : String) (baseAmount : ℚ)
  | swapPreTokenForBase (trader : String) (preTokenAmount : ℚ)
  | enterSettlementPhase (realToken : Token)

/-- The pool state after one operation (result discarded). -/
def applyOp (s : LiquidityPool) : PoolOp → LiquidityPool
  | .addLiquidity owner baseAmount sa sb => (addLiquidity owner baseAmount sa sb s).2
  | .swapBaseForPreToken trader baseAmount => (swapBaseForPreToken trader baseAmount s).2
  | .swapPreTokenForBase trader amt => (swapPreTokenForBase trader amt s).2
  | .enterSettlementPhase realToken => (enterSettlementPhase realToken s).2

/-- The pool state after a sequence of operations. -/
def applyOps (ops : List PoolOp) (s : LiquidityPool) : LiquidityPool :=
  ops.foldl applyOp s

/-- A position as `addLiquidity` creates it from a valid range: positive
square-root bounds in order, positive liquidity. -/
def ValidPosition (p : LPPosition) : Prop :=
  0 < p.lowerSqrtBound ∧ p.lowerSqrtBound ≤ p.upperSqrtBound ∧ 0 < p.liquidity

/-- The POOL ledger account's base-token balance in excess of the recorded
base reserve (accumulated collateral and fees). -/
def poolGap (s : LiquidityPool) : ℚ :=
  s.baseToken.balanceOf "POOL" - s.baseReserve

/-- The swap-visible pool core: reserves and current sqrt price. -/
def swapObservables (s : LiquidityPool) : ℚ × ℚ × ℚ :=
  (s.baseReserve, s.preTokenReserve, s.currentSqrtPrice)

/-- A one-account ledger, for concrete scenarios. -/
def tokenOf (account : String) (amount : ℚ) : Token :=
  { balances := fun a => if a = account then amount else 0, totalSupply := amount }

/-- The empty ledger. -/
def emptyToken : Token :=
  { balances := fun _ => 0, totalSupply := 0 }

/-- Trading-phase pool with no positions; trader `T` holds 100 base tokens. -/
def noLiquidityPool : LiquidityPool :=
  mkLiquidityPool (tokenOf "T" 100) emptyToken (some 1)

/-- Pool with initial price `12.25` (sqrt `7/2`); `LP` holds 8 base tokens,
trader `T` holds 3. -/
def nestedBuyPool0 : LiquidityPool :=
  mkLiquidityPool ((tokenOf "LP" 8).mint "T" 3).2 emptyToken (some (7 / 2))

/-- After `LP` adds 3 base tokens on price range `[1, 16]` (liquidity 4). -/
def nestedBuyPool1 : LiquidityPool :=
  (addLiquidity "LP" 3 1 4 nestedBuyPool0).2

/-- After `LP` also adds 1 base token on the nested range `[4, 9]`
(liquidity 6). -/
def nestedBuyPool2 : LiquidityPool :=
  (addLiquidity "LP" 1 2 3 nestedBuyPool1).2

/-- Pool with initial price `2.25` (sqrt `3/2`); `LP` holds 8 base tokens,
trader `T` holds 10 pre-tokens. -/
def nestedSellPool0 : LiquidityPool :=
  mkLiquidityPool (tokenOf "LP" 8) (tokenOf "T" 10) (some (3 / 2))

/-- After `LP` adds 3 base tokens on price range `[1, 16]` (liquidity 4). -/
def nestedSellPool1 : LiquidityPool :=
  (addLiquidity "LP" 3 1 4 nestedSellPool0).2

/-- After `LP` also adds 1 base token on the nested range `[4, 9]`
(liquidity 6). -/
def nestedSellPool2 : LiquidityPool :=
  (addLiquidity "LP" 1 2 3 nestedSellPool1).2

/-- Pool with one position on price range `[1, 4]` (liquidity 2, from 1 base
token), price `2.25`; trader `T` holds 5 of each token. -/
def singleRangePool : LiquidityPool :=
  (addLiquidity "LP" 1 1 2 (mkLiquidityPool ((tokenOf "LP" 2).mint "T" 5).2
    (tokenOf "T" 5) (some (3 / 2)))).2

/-- Variant of `singleRangePool` with all POOL-account balances removed (trader `T`
still holds 5 of each token), so pool-outbound transfers silently fail. -/
def drainedPool : LiquidityPool :=
  { singleRangePool with baseToken := tokenOf "T" 5, preToken := tokenOf "T" 5 }

/-! ## Theorems -/

theorem str_ne_T_POOL : (("T" : String) = "POOL") = False := eq_false (by decide)

theorem str_ne_POOL_T : (("POOL" : String) = "T") = False := eq_false (by decide)

theorem str_ne_LP_POOL : (("LP" : String) = "POOL") = False := eq_false (by decide)

theorem str_ne_POOL_LP : (("POOL" : String) = "LP") = False := eq_false (by decide)

theorem str_ne_T_LP : (("T" : String) = "LP") = False := eq_false (by decide)

theorem str_ne_LP_T : (("LP" : String) = "T") = False := eq_false (by decide)

/-- Claim C4: for `0 < Pa < Pb` (square roots `0 < sa < sb`) and `x > 0`, the
pre-token amount `x · (√Pb − √Pa) / (1/√Pa − 1/√Pb)` computed by
`calculatePreTokenAmount` equals `x · √(Pa·Pb) = x · (sa · sb)` exactly. -/
theorem preTokenAmount_identity (x sa sb : ℚ)
    (hsa : 0 < sa) (hab : sa < sb) (hx : 0 < x) :
    calculatePreTokenAmount x sa sb = .ok (x * (sa * sb)) := by
  have hsb : 0 < sb := hsa.trans hab
  have hguard : ¬ (sa * sa ≥ sb * sb ∨ sa * sa ≤ 0 ∨ sb * sb ≤ 0) := by
    push_neg
    exact ⟨mul_lt_mul'' hab hab hsa.le hsa.le, by positivity, by positivity⟩
  rw [calculatePreTokenAmount, if_neg hguard, abs_of_pos hsa, abs_of_pos hsb]
  congr 1
  have h1 : sa ≠ 0 := hsa.ne'
  have h2 : sb ≠ 0 := hsb.ne'
  have h3 : sb - sa ≠ 0 := sub_ne_zero.mpr hab.ne'
  field_simp
  ring

/-- Witness for C4 at `x = 7`, `sa = 1`, `sb = 2` (prices `Pa = 1`,
`Pb = 4`). -/
theorem preTokenAmount_identity_witness :
    calculatePreTokenAmount 7 1 2 = .ok 14 := by
  have h := preTokenAmount_identity 7 1 2 (by norm_num) (by norm_num) (by norm_num)
  norm_num at h
  exact h

/-- Counterexample to claim C5: for the invalid range `Pa = 25 ≥ Pb = 9`
(square roots `sa = 5`, `sb = 3`) with `preTokenReserve = 0`,
`calculateCurrentPrice` returns `Pa = 25` instead of failing with
`InvalidRange`. -/
theorem priceFromReserves_invalid_range_cex :
    calculateCurrentPrice 1 0 5 3 = .ok 25 ∧
      ((5 : ℚ) * 5 ≥ 3 * 3 ∨ (5 : ℚ) * 5 ≤ 0 ∨ (3 : ℚ) * 3 ≤ 0) := by
  constructor
  · norm_num [calculateCurrentPrice]
  · norm_num

/-- Claim C5 (amended): for every invalid range (`Pa ≤ 0` or `Pb ≤ 0` or
`Pa ≥ Pb`), `calculateLiquidity`, `calculatePreTokenAmount` and
`calculateBaseAmount` fail with `InvalidRange` for every other argument;
`calculateCurrentPrice` fails with `InvalidRange` only when both reserves are
nonzero, and returns `Pa` when `preTokenReserve = 0` (resp. `Pb` when
`preTokenReserve ≠ 0` and `baseReserve = 0`) even for an invalid range. -/
theorem priceMath_invalid_range (sa sb : ℚ)
    (hinv : sa * sa ≥ sb * sb ∨ sa * sa ≤ 0 ∨ sb * sb ≤ 0) :
    (∀ x, calculateLiquidity x sa sb = .error .invalidRange)
    ∧ (∀ x, calculatePreTokenAmount x sa sb = .error .invalidRange)
    ∧ (∀ y, calculateBaseAmount y sa sb = .error .invalidRange)
    ∧ (∀ baseReserve preTokenReserve, preTokenReserve ≠ 0 → baseReserve ≠ 0 →
        calculateCurrentPrice baseReserve preTokenReserve sa sb =
          .error .invalidRange)
    ∧ (∀ baseReserve, calculateCurrentPrice baseReserve 0 sa sb = .ok (sa * sa))
    ∧ (∀ preTokenReserve, preTokenReserve ≠ 0 →
        calculateCurrentPrice 0 preTokenReserve sa sb = .ok (sb * sb)) := by
  refine ⟨fun x => ?_, fun x => ?_, fun y => ?_,
    fun br pr hpr hbr => ?_, fun br => ?_, fun pr hpr => ?_⟩
  · rw [calculateLiquidity, if_pos hinv]
  · rw [calculatePreTokenAmount, if_pos hinv]
  · rw [calculateBaseAmount, if_pos hinv]
  · rw [calculateCurrentPrice, if_neg hpr, if_neg hbr, calculateLiquidity,
      if_pos hinv]
  · rw [calculateCurrentPrice, if_pos rfl]
  · rw [calculateCurrentPrice, if_neg hpr, if_pos rfl]

/-- Witness for C5 at `sa = 3`, `sb = 2` (`Pa = 9 ≥ Pb = 4`): the liquidity
computation fails while `calculateCurrentPrice` with a zero pre-token reserve
still returns `Pa = 9`. -/
theorem priceMath_invalid_range_witness :
    calculateLiquidity 1 3 2 = .error .invalidRange ∧
      calculateCurrentPrice 5 0 3 2 = .ok 9 := by
  have h := priceMath_invalid_range 3 2 (by norm_num)
  refine ⟨h.1 1, ?_⟩
  have h5 := h.2.2.2.2.1 5
  norm_num at h5
  exact h5

theorem transfer_fail (t : Token) (src dst : String) (amount : ℚ)
    (h : amount ≤ 0 ∨ t.balanceOf src < amount) :
    (t.transfer src dst amount).2 = t := by
  rw [Token.transfer, if_pos h]

theorem transfer_dst_balance (t : Token) (src dst : String) (amount : ℚ)
    (hne : src ≠ dst) (h : ¬ (amount ≤ 0 ∨ t.balanceOf src < amount)) :
    (t.transfer src dst amount).2.balanceOf dst = t.balanceOf dst + amount := by
  rw [Token.transfer, if_neg h]
  simp [Token.balanceOf, Token.setBalance, Ne.symm hne]

theorem transfer_src_balance (t : Token) (src dst : String) (amount : ℚ)
    (hne : src ≠ dst) (h : ¬ (amount ≤ 0 ∨ t.balanceOf src < amount)) :
    (t.transfer src dst amount).2.balanceOf src = t.balanceOf src - amount := by
  rw [Token.transfer, if_neg h]
  simp [Token.balanceOf, Token.setBalance, hne]

theorem transfer_other_balance (t : Token) (src dst a : String) (amount : ℚ)
    (hs : a ≠ src) (hd : a ≠ dst) :
    (t.transfer src dst amount).2.balanceOf a = t.balanceOf a := by
  rw [Token.transfer]
  split
  · rfl
  · simp [Token.balanceOf, Token.setBalance, hs, hd]

theorem valid_range_guard {sa sb : ℚ} (hsa : 0 < sa) (hab : sa < sb) :
    ¬ (sa * sa ≥ sb * sb ∨ sa * sa ≤ 0 ∨ sb * sb ≤ 0) := by
  have hsb : 0 < sb := hsa.trans hab
  push_neg
  exact ⟨mul_lt_mul'' hab hab hsa.le hsa.le, mul_pos hsa hsa, mul_pos hsb hsb⟩

theorem calculatePreTokenAmount_valid (x sa sb : ℚ) (hsa : 0 < sa)
    (hab : sa < sb) :
    calculatePreTokenAmount x sa sb = .ok (x * (sa * sb)) := by
  have hsb : 0 < sb := hsa.trans hab
  rw [calculatePreTokenAmount, if_neg (valid_range_guard hsa hab),
    abs_of_pos hsa, abs_of_pos hsb]
  congr 1
  have h1 : sa ≠ 0 := hsa.ne'
  have h2 : sb ≠ 0 := hsb.ne'
  have h3 : sb - sa ≠ 0 := sub_ne_zero.mpr hab.ne'
  field_simp
  ring

theorem calculateLiquidity_valid (x sa sb : ℚ) (hsa : 0 < sa) (hab : sa < sb) :
    calculateLiquidity x sa sb = .ok (x / (1 / sa - 1 / sb)) := by
  have hsb : 0 < sb := hsa.trans hab
  rw [calculateLiquidity, if_neg (valid_range_guard hsa hab),
    abs_of_pos hsa, abs_of_pos hsb]

/-- Success-state inversion for `addLiquidity`: a successful call implies the
guards passed, both calculator calls succeeded, and the result is the exact
record the source builds. -/
theorem addLiquidity_ok (owner : String) (x sa sb : ℚ) (s : LiquidityPool)
    (hok : (addLiquidity owner x sa sb s).1.isOk = true) :
    s.isSettlementPhase = false ∧ 0 < x ∧
      x * 2 ≤ s.baseToken.balanceOf owner ∧
      ∃ preAmt liqAmt,
        calculatePreTokenAmount x sa sb = .ok preAmt ∧
        calculateLiquidity x sa sb = .ok liqAmt ∧
        addLiquidity owner x sa sb s =
          (.ok ("LP-" ++ toString s.nextPositionId),
           { s with
             baseToken := (s.baseToken.transfer owner "POOL" (x * 2)).2
             preToken := (s.preToken.mint "POOL" preAmt).2
             baseReserve := s.baseReserve + x
             preTokenReserve := s.preTokenReserve + preAmt
             liquidity := s.liquidity + liqAmt
             lpPositions := s.lpPositions ++
               [{ id := "LP-" ++ toString s.nextPositionId
                  owner := owner
                  liquidity := liqAmt
                  lowerSqrtBound := sa
                  upperSqrtBound := sb
                  collateralAmount := x
                  initialPreTokenAmount := preAmt }]
             nextPositionId := s.nextPositionId + 1
             currentSqrtPrice :=
               if s.initialPriceSet = false ∧ s.lpPositions.length + 1 = 1
               then |sa| else s.currentSqrtPrice
             initialPriceSet :=
               if s.initialPriceSet = false ∧ s.lpPositions.length + 1 = 1
               then true else s.initialPriceSet }) := by
  by_cases h1 : s.isSettlementPhase = true
  · simp [addLiquidity, h1, Except.isOk, Except.toBool] at hok
  by_cases h2 : x ≤ 0
  · simp [addLiquidity, h1, h2, Except.isOk, Except.toBool] at hok
  by_cases h3 : s.baseToken.balanceOf owner < x * 2
  · simp [addLiquidity, h1, h2, h3, Except.isOk, Except.toBool] at hok
  rcases h4 : calculatePreTokenAmount x sa sb with e | preAmt
  · simp [addLiquidity, h1, h2, h3, h4, Except.isOk, Except.toBool] at hok
  rcases h5 : calculateLiquidity x sa sb with e | liqAmt
  · simp [addLiquidity, h1, h2, h3, h4, h5, Except.isOk, Except.toBool] at hok
  refine ⟨by simpa using h1, not_le.mp h2, not_lt.mp h3, preAmt, liqAmt,
    rfl, rfl, ?_⟩
  simp only [addLiquidity, h4, h5]
  rw [if_neg h1, if_neg h2, if_neg h3]

/-- Frame lemma: when the price was already initialised, `addLiquidity` never
writes `currentSqrtPrice` (whether it succeeds or fails). -/
theorem addLiquidity_keeps_price (owner : String) (x sa sb : ℚ)
    (s : LiquidityPool) (hset : s.initialPriceSet = true) :
    (addLiquidity owner x sa sb s).2.currentSqrtPrice = s.currentSqrtPrice := by
  rw [addLiquidity]
  split
  · rfl
  split
  · rfl
  split
  · rfl
  split
  · simp [hset]
  · rfl
  · rfl

/-- When no initial price was set and the pool has no positions, a successful
`addLiquidity` initialises `currentSqrtPrice` to `√Pa = |sa|`. -/
theorem addLiquidity_first_price (owner : String) (x sa sb : ℚ)
    (s : LiquidityPool) (hset : s.initialPriceSet = false)
    (hemp : s.lpPositions = [])
    (hok : (addLiquidity owner x sa sb s).1.isOk = true) :
    (addLiquidity owner x sa sb s).2.currentSqrtPrice = |sa| := by
  obtain ⟨-, -, -, preAmt, liqAmt, -, -, heq⟩ := addLiquidity_ok owner x sa sb s hok
  rw [heq]
  simp [hset, hemp]

/-- Claim C1 demonstration (code bug): on a Trading-phase pool with no
positions, `swapBaseForPreToken` fails with `NoLiquidityAvailable`, yet the
trader's ledger balance drops from 100 to 90 and the POOL account gains 10:
the input transfer precedes the liquidity lookup and is not refunded.  The
pool's own reserves, price and positions are unchanged. -/
theorem swap_failure_mutates_ledger :
    (swapBaseForPreToken "T" 10 noLiquidityPool).1 = .error .noLiquidityAvailable
    ∧ noLiquidityPool.baseToken.balanceOf "T" = 100
    ∧ (swapBaseForPreToken "T" 10 noLiquidityPool).2.baseToken.balanceOf "T" = 90
    ∧ noLiquidityPool.baseToken.balanceOf "POOL" = 0
    ∧ (swapBaseForPreToken "T" 10 noLiquidityPool).2.baseToken.balanceOf "POOL" = 10
    ∧ swapObservables (swapBaseForPreToken "T" 10 noLiquidityPool).2 =
        swapObservables noLiquidityPool
    ∧ (swapBaseForPreToken "T" 10 noLiquidityPool).2.lpPositions =
        noLiquidityPool.lpPositions := by
  norm_num [swapBaseForPreToken, noLiquidityPool, mkLiquidityPool, tokenOf,
    emptyToken, Token.balanceOf, Token.transfer, Token.setBalance, Token.mint,
    getCurrentPrice, findStartBuy, findFirstSuffix, sortByLowerAsc,
    List.insertionSort, swapObservables, str_ne_T_POOL, str_ne_POOL_T]

/-- Once settled, every operation (including a failing one) leaves the phase
settled: no operation ever writes `false` into `isSettlementPhase`. -/
theorem applyOp_keeps_settled (s : LiquidityPool) (op : PoolOp)
    (h : s.isSettlementPhase = true) :
    (applyOp s op).isSettlementPhase = true := by
  cases op <;>
    simp [applyOp, addLiquidity, swapBaseForPreToken, swapPreTokenForBase,
      enterSettlementPhase, h]

/-- Claim C3: the phase transition is one-way.  From Trading the first
`enterSettlementPhase` succeeds, settles the pool and stores the real token;
once settled a second call fails with `AlreadyInSettlement`, `addLiquidity`
and both swaps fail with `SettlementPhaseViolation` leaving the state
untouched, and no sequence of operations ever returns the pool to Trading. -/
theorem settlement_one_way :
    (∀ (s : LiquidityPool) (rt : Token), s.isSettlementPhase = false →
      enterSettlementPhase rt s =
        (.ok (), { s with isSettlementPhase := true, realToken := some rt }))
    ∧ (∀ (s : LiquidityPool) (rt : Token), s.isSettlementPhase = true →
      enterSettlementPhase rt s = (.error .alreadyInSettlement, s))
    ∧ (∀ s : LiquidityPool, s.isSettlementPhase = true →
      (∀ owner x sa sb, addLiquidity owner x sa sb s =
        (.error .settlementPhaseViolation, s))
      ∧ (∀ trader amt, swapBaseForPreToken trader amt s =
        (.error .settlementPhaseViolation, s))
      ∧ (∀ trader amt, swapPreTokenForBase trader amt s =
        (.error .settlementPhaseViolation, s)))
    ∧ (∀ (s : LiquidityPool) (ops : List PoolOp), s.isSettlementPhase = true →
      (applyOps ops s).isSettlementPhase = true) := by
  refine ⟨?_, ?_, ?_, ?_⟩
  · intro s rt h
    rw [enterSettlementPhase, if_neg (by simp [h])]
  · intro s rt h
    rw [enterSettlementPhase, if_pos h]
  · intro s h
    exact ⟨fun owner x sa sb => by rw [addLiquidity, if_pos h],
      fun trader amt => by rw [swapBaseForPreToken, if_pos h],
      fun trader amt => by rw [swapPreTokenForBase, if_pos h]⟩
  · intro s ops h
    induction ops generalizing s with
    | nil => exact h
    | cons op rest ih => exact ih (applyOp s op) (applyOp_keeps_settled s op h)

/-- Witness for C3 on a freshly constructed pool. -/
theorem settlement_one_way_witness :
    (enterSettlementPhase emptyToken
      (mkLiquidityPool emptyToken emptyToken none)).2.isSettlementPhase = true
    ∧ (enterSettlementPhase emptyToken
        (enterSettlementPhase emptyToken
          (mkLiquidityPool emptyToken emptyToken none)).2).1 =
        .error .alreadyInSettlement
    ∧ (addLiquidity "LP" 1 1 2
        (enterSettlementPhase emptyToken
          (mkLiquidityPool emptyToken emptyToken none)).2).1 =
        .error .settlementPhaseViolation
    ∧ (applyOps [.swapBaseForPreToken "T" 1, .enterSettlementPhase emptyToken]
        (enterSettlementPhase emptyToken
          (mkLiquidityPool emptyToken emptyToken none)).2).isSettlementPhase =
        true := by
  have h0 : (mkLiquidityPool emptyToken emptyToken none).isSettlementPhase =
      false := rfl
  have h1 := settlement_one_way.1 (mkLiquidityPool emptyToken emptyToken none)
    emptyToken h0
  have hset : (enterSettlementPhase emptyToken
      (mkLiquidityPool emptyToken emptyToken none)).2.isSettlementPhase =
      true := by rw [h1]
  refine ⟨hset, ?_, ?_, ?_⟩
  · rw [settlement_one_way.2.1 _ emptyToken hset]
  · rw [(settlement_one_way.2.2.1 _ hset).1 "LP" 1 1 2]
  · exact settlement_one_way.2.2.2 _ _ hset

/-- Claim C6: a successful `addLiquidity` on a pool whose price is already
set leaves `currentSqrtPrice` unchanged; only the pool's first position with
no construction-time price initialises it to `√Pa = |sa|`. -/
theorem addLiquidity_price_effect (s : LiquidityPool) (owner : String)
    (x sa sb : ℚ) :
    (s.initialPriceSet = true →
      (addLiquidity owner x sa sb s).2.currentSqrtPrice = s.currentSqrtPrice)
    ∧ (s.initialPriceSet = false → s.lpPositions = [] →
      (addLiquidity owner x sa sb s).1.isOk = true →
      (addLiquidity owner x sa sb s).2.currentSqrtPrice = |sa|) :=
  ⟨fun hset => addLiquidity_keeps_price owner x sa sb s hset,
   fun hset hemp hok => addLiquidity_first_price owner x sa sb s hset hemp hok⟩

/-- Witness for C6: with a construction-time price the sqrt price stays `1`;
without one the first position sets it to `√Pa = 1`. -/
theorem addLiquidity_price_effect_witness :
    (addLiquidity "LP" 1 1 2
      (mkLiquidityPool (tokenOf "LP" 2) emptyToken (some 1))).2.currentSqrtPrice =
      (mkLiquidityPool (tokenOf "LP" 2) emptyToken (some 1)).currentSqrtPrice
    ∧ (addLiquidity "LP" 1 1 2
        (mkLiquidityPool (tokenOf "LP" 2) emptyToken none)).2.currentSqrtPrice =
        |(1 : ℚ)| := by
  have hpre := calculatePreTokenAmount_valid 1 1 2 (by norm_num) (by norm_num)
  have hliq := calculateLiquidity_valid 1 1 2 (by norm_num) (by norm_num)
  refine ⟨(addLiquidity_price_effect _ "LP" 1 1 2).1 rfl,
    (addLiquidity_price_effect _ "LP" 1 1 2).2 rfl rfl ?_⟩
  norm_num [addLiquidity, mkLiquidityPool, tokenOf, emptyToken,
    Token.balanceOf, hpre, hliq, Except.isOk, Except.toBool]

/-- Claim C7: in Trading phase with a valid range and positive amount,
`addLiquidity` fails with `InsufficientBalance` iff the owner's base balance
is below `2 × baseAmount`; on success exactly `2 · baseAmount` base tokens
move from the owner to the POOL account. -/
theorem addLiquidity_insufficient_iff (s : LiquidityPool) (owner : String)
    (x sa sb : ℚ) (hphase : s.isSettlementPhase = false)
    (hsa : 0 < sa) (hab : sa < sb) (hx : 0 < x) :
    ((addLiquidity owner x sa sb s).1 = .error .insufficientBalance ↔
      s.baseToken.balanceOf owner < 2 * x)
    ∧ (2 * x ≤ s.baseToken.balanceOf owner → owner ≠ "POOL" →
      (addLiquidity owner x sa sb s).1.isOk = true ∧
      (addLiquidity owner x sa sb s).2.baseToken.balanceOf owner =
        s.baseToken.balanceOf owner - 2 * x ∧
      (addLiquidity owner x sa sb s).2.baseToken.balanceOf "POOL" =
        s.baseToken.balanceOf "POOL" + 2 * x) := by
  have hx2 : ¬ x ≤ 0 := not_le.mpr hx
  have hpre := calculatePreTokenAmount_valid x sa sb hsa hab
  have hliq := calculateLiquidity_valid x sa sb hsa hab
  have hres : ∀ _ : ¬ s.baseToken.balanceOf owner < x * 2,
      (addLiquidity owner x sa sb s).1 =
        .ok ("LP-" ++ toString s.nextPositionId) := by
    intro hbal
    rw [addLiquidity, if_neg (by simp [hphase]), if_neg hx2, if_neg hbal,
      hpre, hliq]
  have herr : ∀ _ : s.baseToken.balanceOf owner < x * 2,
      (addLiquidity owner x sa sb s).1 = .error .insufficientBalance := by
    intro hbal
    rw [addLiquidity, if_neg (by simp [hphase]), if_neg hx2, if_pos hbal]
  constructor
  · constructor
    · intro h
      by_contra hge
      rw [hres (by rwa [mul_comm x 2])] at h
      simp at h
    · intro hlt
      exact herr (by rwa [mul_comm 2 x] at hlt)
  · intro hbal hownPool
    have hbal' : ¬ s.baseToken.balanceOf owner < x * 2 := by
      rw [mul_comm x 2]
      exact not_lt.mpr hbal
    have hok : (addLiquidity owner x sa sb s).1.isOk = true := by
      rw [hres hbal']
      rfl
    obtain ⟨-, -, -, preAmt, liqAmt, -, -, heq⟩ :=
      addLiquidity_ok owner x sa sb s hok
    have hcond : ¬ (x * 2 ≤ 0 ∨ s.baseToken.balanceOf owner < x * 2) :=
      not_or.mpr ⟨not_le.mpr (by linarith), hbal'⟩
    refine ⟨hok, ?_, ?_⟩
    · rw [heq]
      show (s.baseToken.transfer owner "POOL" (x * 2)).2.balanceOf owner = _
      rw [transfer_src_balance _ _ _ _ hownPool hcond, mul_comm x 2]
    · rw [heq]
      show (s.baseToken.transfer owner "POOL" (x * 2)).2.balanceOf "POOL" = _
      rw [transfer_dst_balance _ _ _ _ hownPool hcond, mul_comm x 2]

/-- Witness for C7, Scenario D: `baseAmount = 5000` with an owner holding
exactly 9999 base tokens fails with `InsufficientBalance`, while an owner
holding 10000 succeeds and pays exactly 10000. -/
theorem addLiquidity_insufficient_iff_witness :
    (addLiquidity "LP" 5000 1 2
      (mkLiquidityPool (tokenOf "LP" 9999) emptyToken (some 1))).1 =
      .error .insufficientBalance
    ∧ (addLiquidity "LP" 5000 1 2
        (mkLiquidityPool (tokenOf "LP" 10000) emptyToken (some 1))).2.baseToken.balanceOf
        "LP" = 0 := by
  constructor
  · refine ((addLiquidity_insufficient_iff _ "LP" 5000 1 2 rfl (by norm_num)
      (by norm_num) (by norm_num)).1).mpr ?_
    norm_num [mkLiquidityPool, tokenOf, Token.balanceOf]
  · have h := (addLiquidity_insufficient_iff
      (mkLiquidityPool (tokenOf "LP" 10000) emptyToken (some 1)) "LP" 5000 1 2
      rfl (by norm_num) (by norm_num) (by norm_num)).2
      (by norm_num [mkLiquidityPool, tokenOf, Token.balanceOf]) (by decide)
    rw [h.2.1]
    norm_num [mkLiquidityPool, tokenOf, Token.balanceOf]

/-- Claim C10: a pool constructed without an initial price has
`currentSqrtPrice = 0`, so `getCurrentPrice()` returns `0`, which lies below
every valid price range; the first successful `addLiquidity` then sets
`currentSqrtPrice` to `√Pa = |sa|` of that position. -/
theorem unset_initial_price (tb tp : Token) :
    (mkLiquidityPool tb tp none).currentSqrtPrice = 0
    ∧ getCurrentPrice (mkLiquidityPool tb tp none) = 0
    ∧ (∀ sa sb : ℚ, 0 < sa → sa < sb →
        getCurrentPrice (mkLiquidityPool tb tp none) < sa * sa)
    ∧ (∀ (owner : String) (x sa sb : ℚ),
        (addLiquidity owner x sa sb (mkLiquidityPool tb tp none)).1.isOk = true →
        (addLiquidity owner x sa sb
          (mkLiquidityPool tb tp none)).2.currentSqrtPrice = |sa|) := by
  have hzero : getCurrentPrice (mkLiquidityPool tb tp none) = 0 := by
    norm_num [getCurrentPrice, mkLiquidityPool]
  refine ⟨rfl, hzero, fun sa sb hsa _ => ?_, fun owner x sa sb hok => ?_⟩
  · rw [hzero]
    exact mul_pos hsa hsa
  · exact addLiquidity_first_price owner x sa sb _ rfl rfl hok

/-- Witness for C10 with concrete tokens and a first position on
`[4, 9]` (sqrt bounds 2, 3). -/
theorem unset_initial_price_witness :
    getCurrentPrice (mkLiquidityPool (tokenOf "LP" 2) emptyToken none) = 0
    ∧ getCurrentPrice (mkLiquidityPool (tokenOf "LP" 2) emptyToken none) <
        2 * 2
    ∧ (addLiquidity "LP" 1 2 3
        (mkLiquidityPool (tokenOf "LP" 2) emptyToken none)).2.currentSqrtPrice =
        |(2 : ℚ)| := by
  have h := unset_initial_price (tokenOf "LP" 2) emptyToken
  have hpre := calculatePreTokenAmount_valid 1 2 3 (by norm_num) (by norm_num)
  have hliq := calculateLiquidity_valid 1 2 3 (by norm_num) (by norm_num)
  refine ⟨h.2.1, h.2.2.1 2 3 (by norm_num) (by norm_num), h.2.2.2 "LP" 1 2 3 ?_⟩
  norm_num [addLiquidity, mkLiquidityPool, tokenOf, emptyToken,
    Token.balanceOf, hpre, hliq, Except.isOk, Except.toBool]

theorem findFirstSuffix_some (pred : LPPosition → Prop) [DecidablePred pred] :
    ∀ ps qs : List LPPosition, findFirstSuffix pred ps = some qs →
      qs.Sublist ps ∧ ∃ p rest, qs = p :: rest ∧ pred p := by
  intro ps
  induction ps with
  | nil => intro qs h; simp [findFirstSuffix] at h
  | cons p rest ih =>
    intro qs h
    rw [findFirstSuffix] at h
    by_cases hp : pred p
    · rw [if_pos hp] at h
      cases h
      exact ⟨List.Sublist.refl _, p, rest, rfl, hp⟩
    · rw [if_neg hp] at h
      obtain ⟨hsub, hex⟩ := ih qs h
      exact ⟨hsub.trans (List.sublist_cons_self p rest), hex⟩

theorem findStartBuy_some (ps : List LPPosition) (price : ℚ)
    (qs : List LPPosition) (h : findStartBuy ps price = some qs) :
    qs.Sublist ps ∧ ∃ p rest, qs = p :: rest ∧
      (p.lowerPriceBound ≤ price ∧ price ≤ p.upperPriceBound ∨
        price < p.lowerPriceBound) := by
  rw [findStartBuy] at h
  rcases hc : findFirstSuffix
      (fun p => p.lowerPriceBound ≤ price ∧ price ≤ p.upperPriceBound) ps
      with _ | qs'
  · rw [hc] at h
    obtain ⟨hsub, p, rest, rfl, hp⟩ := findFirstSuffix_some _ ps qs h
    exact ⟨hsub, p, rest, rfl, .inr hp⟩
  · rw [hc] at h
    cases h
    obtain ⟨hsub, p, rest, rfl, hp⟩ := findFirstSuffix_some _ ps qs hc
    exact ⟨hsub, p, rest, rfl, .inl hp⟩

theorem findStartSell_some (ps : List LPPosition) (price : ℚ)
    (qs : List LPPosition) (h : findStartSell ps price = some qs) :
    qs.Sublist ps ∧ ∃ p rest, qs = p :: rest ∧
      (p.lowerPriceBound ≤ price ∧ price ≤ p.upperPriceBound ∨
        p.upperPriceBound < price) := by
  rw [findStartSell] at h
  rcases hc : findFirstSuffix
      (fun p => p.lowerPriceBound ≤ price ∧ price ≤ p.upperPriceBound) ps
      with _ | qs'
  · rw [hc] at h
    obtain ⟨hsub, p, rest, rfl, hp⟩ := findFirstSuffix_some _ ps qs h
    exact ⟨hsub, p, rest, rfl, .inr hp⟩
  · rw [hc] at h
    cases h
    obtain ⟨hsub, p, rest, rfl, hp⟩ := findFirstSuffix_some _ ps qs hc
    exact ⟨hsub, p, rest, rfl, .inl hp⟩

theorem abs_le_abs_of_mul_self_le {a b : ℚ} (h : a * a ≤ b * b) :
    |a| ≤ |b| := by
  nlinarith [abs_nonneg a, abs_nonneg b, abs_mul_abs_self a,
    abs_mul_abs_self b]

/-- Loop invariant of the buy loop: provided every position is valid, the
running sqrt price starts below the first position's upper sqrt bound, and
upper bounds are nondecreasing along the list, the loop never lowers the
running sqrt price. -/
theorem buyLoop_mono (ps : List LPPosition) :
    ∀ remaining totalOut newSqrt : ℚ,
      (∀ p ∈ ps, ValidPosition p) → 0 ≤ newSqrt →
      (∀ p : LPPosition, ps.head? = some p → newSqrt ≤ |p.upperSqrtBound|) →
      ps.Pairwise (fun a b => a.upperSqrtBound ≤ b.upperSqrtBound) →
      newSqrt ≤ (buyLoop remaining totalOut newSqrt ps).2.2 := by
  induction ps with
  | nil => intro rem tot ns _ _ _ _; simp [buyLoop]
  | cons p rest ih =>
    intro rem tot ns hval hns hhead hpair
    obtain ⟨hpl, hplu, hpL⟩ := hval p (List.mem_cons_self p rest)
    have hpu : 0 < p.upperSqrtBound := lt_of_lt_of_le hpl hplu
    have habs : |p.lowerSqrtBound| ≤ |p.upperSqrtBound| := by
      rw [abs_of_pos hpl, abs_of_pos hpu]; exact hplu
    have hup : ns ≤ |p.upperSqrtBound| := hhead p rfl
    simp only [buyLoop]
    by_cases hrem : rem ≤ 0
    · rw [if_pos hrem]
    rw [if_neg hrem]
    have hclamp : ns ≤ max ns |p.lowerSqrtBound| := le_max_left _ _
    have hclampu : max ns |p.lowerSqrtBound| ≤ |p.upperSqrtBound| :=
      max_le hup habs
    have hdivpos : 0 ≤ rem / p.liquidity :=
      div_nonneg (not_le.mp hrem).le hpL.le
    have heff : max ns |p.lowerSqrtBound| ≤
        min (max ns |p.lowerSqrtBound| + rem / p.liquidity) |p.upperSqrtBound| :=
      le_min (le_add_of_nonneg_right hdivpos) hclampu
    by_cases hbreak :
        min (max ns |p.lowerSqrtBound| + rem / p.liquidity) |p.upperSqrtBound| <
          |p.upperSqrtBound|
    · rw [if_pos hbreak]
      exact hclamp.trans heff
    · rw [if_neg hbreak]
      have heq :
          min (max ns |p.lowerSqrtBound| + rem / p.liquidity) |p.upperSqrtBound| =
            |p.upperSqrtBound| :=
        le_antisymm (min_le_right _ _) (not_lt.mp hbreak)
      have hrest : ∀ q ∈ rest, ValidPosition q :=
        fun q hq => hval q (List.mem_cons_of_mem p hq)
      have hpairrest := hpair.of_cons
      have hheadrest : ∀ q : LPPosition, rest.head? = some q →
          min (max ns |p.lowerSqrtBound| + rem / p.liquidity)
            |p.upperSqrtBound| ≤ |q.upperSqrtBound| := by
        intro q hq
        cases rest with
        | nil => simp at hq
        | cons q' t =>
          simp only [List.head?_cons, Option.some_inj] at hq
          obtain ⟨hql, hqlu, -⟩ := hrest q' (List.mem_cons_self q' t)
          have hqu : 0 < q'.upperSqrtBound := lt_of_lt_of_le hql hqlu
          have hle : p.upperSqrtBound ≤ q'.upperSqrtBound :=
            (List.pairwise_cons.mp hpair).1 q' (List.mem_cons_self q' t)
          rw [← hq, heq, abs_of_pos hpu, abs_of_pos hqu]
          exact hle
      calc ns ≤ min (max ns |p.lowerSqrtBound| + rem / p.liquidity)
            |p.upperSqrtBound| := hclamp.trans heff
        _ ≤ _ := ih _ _ _ hrest (hns.trans (hclamp.trans heff)) hheadrest
            hpairrest

/-- Loop invariant of the sell loop: provided every position is valid, the
running sqrt price is positive and starts above the first position's lower
sqrt bound, and lower bounds are nonincreasing along the list, the loop never
raises the running sqrt price. -/
theorem sellLoop_mono (ps : List LPPosition) :
    ∀ remaining totalOut newSqrt : ℚ,
      (∀ p ∈ ps, ValidPosition p) → 0 < newSqrt →
      (∀ p : LPPosition, ps.head? = some p → |p.lowerSqrtBound| ≤ newSqrt) →
      ps.Pairwise (fun a b => b.lowerSqrtBound ≤ a.lowerSqrtBound) →
      (sellLoop remaining totalOut newSqrt ps).2.2 ≤ newSqrt := by
  induction ps with
  | nil => intro rem tot ns _ _ _ _; simp [sellLoop]
  | cons p rest ih =>
    intro rem tot ns hval hns hhead hpair
    obtain ⟨hpl, hplu, hpL⟩ := hval p (List.mem_cons_self p rest)
    have hpu : 0 < p.upperSqrtBound := lt_of_lt_of_le hpl hplu
    have habs : |p.lowerSqrtBound| ≤ |p.upperSqrtBound| := by
      rw [abs_of_pos hpl, abs_of_pos hpu]; exact hplu
    have hlow : |p.lowerSqrtBound| ≤ ns := hhead p rfl
    simp only [sellLoop]
    by_cases hrem : rem ≤ 0
    · rw [if_pos hrem]
    rw [if_neg hrem]
    have hclamp : min ns |p.upperSqrtBound| ≤ ns := min_le_left _ _
    have hclamppos : 0 < min ns |p.upperSqrtBound| :=
      lt_min hns (abs_pos.mpr hpu.ne')
    have hlowclamp : |p.lowerSqrtBound| ≤ min ns |p.upperSqrtBound| :=
      le_min hlow habs
    have hdivlt : 1 / min ns |p.upperSqrtBound| <
        rem / p.liquidity + 1 / min ns |p.upperSqrtBound| := by
      have : 0 < rem / p.liquidity := div_pos (not_le.mp hrem) hpL
      linarith
    have hdivpos : 0 < rem / p.liquidity + 1 / min ns |p.upperSqrtBound| :=
      lt_trans (one_div_pos.mpr hclamppos) hdivlt
    have hminNew : (if 0 < rem / p.liquidity + 1 / min ns |p.upperSqrtBound|
        then 1 / (rem / p.liquidity + 1 / min ns |p.upperSqrtBound|) else 0) <
          min ns |p.upperSqrtBound| := by
      rw [if_pos hdivpos]
      have h1 := one_div_lt_one_div_of_lt (one_div_pos.mpr hclamppos) hdivlt
      rwa [one_div_one_div] at h1
    have heffle :
        max (if 0 < rem / p.liquidity + 1 / min ns |p.upperSqrtBound|
          then 1 / (rem / p.liquidity + 1 / min ns |p.upperSqrtBound|) else 0)
          |p.lowerSqrtBound| ≤ min ns |p.upperSqrtBound| :=
      max_le hminNew.le hlowclamp
    by_cases hbreak : |p.lowerSqrtBound| <
        max (if 0 < rem / p.liquidity + 1 / min ns |p.upperSqrtBound|
          then 1 / (rem / p.liquidity + 1 / min ns |p.upperSqrtBound|) else 0)
          |p.lowerSqrtBound|
    · rw [if_pos hbreak]
      exact heffle.trans hclamp
    · rw [if_neg hbreak]
      have heq :
          max (if 0 < rem / p.liquidity + 1 / min ns |p.upperSqrtBound|
            then 1 / (rem / p.liquidity + 1 / min ns |p.upperSqrtBound|) else 0)
            |p.lowerSqrtBound| = |p.lowerSqrtBound| :=
        le_antisymm (not_lt.mp hbreak) (le_max_right _ _)
      have hrest : ∀ q ∈ rest, ValidPosition q :=
        fun q hq => hval q (List.mem_cons_of_mem p hq)
      have hposeff : 0 < max (if 0 < rem / p.liquidity +
          1 / min ns |p.upperSqrtBound|
          then 1 / (rem / p.liquidity + 1 / min ns |p.upperSqrtBound|) else 0)
          |p.lowerSqrtBound| := by
        rw [heq]
        exact abs_pos.mpr hpl.ne'
      have hheadrest : ∀ q : LPPosition, rest.head? = some q →
          |q.lowerSqrtBound| ≤
            max (if 0 < rem / p.liquidity + 1 / min ns |p.upperSqrtBound|
              then 1 / (rem / p.liquidity + 1 / min ns |p.upperSqrtBound|)
              else 0) |p.lowerSqrtBound| := by
        intro q hq
        cases rest with
        | nil => simp at hq
        | cons q' t =>
          simp only [List.head?_cons, Option.some_inj] at hq
          obtain ⟨hql, -, -⟩ := hrest q' (List.mem_cons_self q' t)
          have hle : q'.lowerSqrtBound ≤ p.lowerSqrtBound :=
            (List.pairwise_cons.mp hpair).1 q' (List.mem_cons_self q' t)
          rw [← hq, heq, abs_of_pos hql, abs_of_pos hpl]
          exact hle
      calc (sellLoop _ _ _ rest).2.2 ≤ _ :=
            ih _ _ _ hrest hposeff hheadrest hpair.of_cons
        _ ≤ ns := heffle.trans hclamp

/-- Success-guard inversion for `swapBaseForPreToken`. -/
theorem swapBuy_isOk (trader : String) (amt : ℚ) (s : LiquidityPool)
    (hok : (swapBaseForPreToken trader amt s).1.isOk = true) :
    s.isSettlementPhase = false ∧ 0 < amt ∧
      amt ≤ s.baseToken.balanceOf trader ∧
      ∃ qs, findStartBuy (sortByLowerAsc s.lpPositions) (getCurrentPrice s) =
        some qs := by
  by_cases h1 : s.isSettlementPhase = true
  · simp [swapBaseForPreToken, h1, Except.isOk, Except.toBool] at hok
  by_cases h2 : amt ≤ 0
  · simp [swapBaseForPreToken, h1, h2, Except.isOk, Except.toBool] at hok
  by_cases h3 : s.baseToken.balanceOf trader < amt
  · simp [swapBaseForPreToken, h1, h2, h3, Except.isOk, Except.toBool] at hok
  rcases hfind : findStartBuy (sortByLowerAsc s.lpPositions)
      (getCurrentPrice s) with _ | qs
  · simp [swapBaseForPreToken, h1, h2, h3, hfind, Except.isOk,
      Except.toBool] at hok
  · exact ⟨by simpa using h1, not_le.mp h2, not_lt.mp h3, qs, by simp [hfind]⟩

/-- Success-guard inversion for `swapPreTokenForBase`. -/
theorem swapSell_isOk (trader : String) (amt : ℚ) (s : LiquidityPool)
    (hok : (swapPreTokenForBase trader amt s).1.isOk = true) :
    s.isSettlementPhase = false ∧ 0 < amt ∧
      amt ≤ s.preToken.balanceOf trader ∧
      ∃ qs, findStartSell (sortByUpperDesc s.lpPositions) (getCurrentPrice s) =
        some qs := by
  by_cases h1 : s.isSettlementPhase = true
  · simp [swapPreTokenForBase, h1, Except.isOk, Except.toBool] at hok
  by_cases h2 : amt ≤ 0
  · simp [swapPreTokenForBase, h1, h2, Except.isOk, Except.toBool] at hok
  by_cases h3 : s.preToken.balanceOf trader < amt
  · simp [swapPreTokenForBase, h1, h2, h3, Except.isOk, Except.toBool] at hok
  rcases hfind : findStartSell (sortByUpperDesc s.lpPositions)
      (getCurrentPrice s) with _ | qs
  · simp [swapPreTokenForBase, h1, h2, h3, hfind, Except.isOk,
      Except.toBool] at hok
  · exact ⟨by simpa using h1, not_le.mp h2, not_lt.mp h3, qs, by simp [hfind]⟩

/-- Explicit result of a guarded successful `swapBaseForPreToken`. -/
theorem swapBuy_state (trader : String) (amt : ℚ) (s : LiquidityPool)
    (qs : List LPPosition) (h1 : s.isSettlementPhase = false)
    (h2 : ¬ amt ≤ 0) (h3 : ¬ s.baseToken.balanceOf trader < amt)
    (hfind : findStartBuy (sortByLowerAsc s.lpPositions) (getCurrentPrice s) =
      some qs) :
    swapBaseForPreToken trader amt s =
      (.ok (buyLoop (amt - amt * feePercentage) 0 |s.currentSqrtPrice| qs).2.1,
       { s with
         baseToken :=
           if 0 < (buyLoop (amt - amt * feePercentage) 0
               |s.currentSqrtPrice| qs).1
           then (((s.baseToken.transfer trader "POOL" amt).2).transfer "POOL"
             trader (buyLoop (amt - amt * feePercentage) 0
               |s.currentSqrtPrice| qs).1).2
           else (s.baseToken.transfer trader "POOL" amt).2
         preToken := (s.preToken.transfer "POOL" trader
           (buyLoop (amt - amt * feePercentage) 0 |s.currentSqrtPrice| qs).2.1).2
         baseReserve := s.baseReserve + ((amt - amt * feePercentage) -
           (buyLoop (amt - amt * feePercentage) 0 |s.currentSqrtPrice| qs).1)
         preTokenReserve := s.preTokenReserve -
           (buyLoop (amt - amt * feePercentage) 0 |s.currentSqrtPrice| qs).2.1
         currentSqrtPrice := (buyLoop (amt - amt * feePercentage) 0
           |s.currentSqrtPrice| qs).2.2 }) := by
  rw [swapBaseForPreToken, if_neg (by simp [h1]), if_neg h2, if_neg h3, hfind]

/-- Explicit result of a guarded successful `swapPreTokenForBase`. -/
theorem swapSell_state (trader : String) (amt : ℚ) (s : LiquidityPool)
    (qs : List LPPosition) (h1 : s.isSettlementPhase = false)
    (h2 : ¬ amt ≤ 0) (h3 : ¬ s.preToken.balanceOf trader < amt)
    (hfind : findStartSell (sortByUpperDesc s.lpPositions) (getCurrentPrice s) =
      some qs) :
    swapPreTokenForBase trader amt s =
      (.ok ((sellLoop amt 0 |s.currentSqrtPrice| qs).2.1 -
        (sellLoop amt 0 |s.currentSqrtPrice| qs).2.1 * feePercentage),
       { s with
         preToken :=
           if 0 < (sellLoop amt 0 |s.currentSqrtPrice| qs).1
           then (((s.preToken.transfer trader "POOL" amt).2).transfer "POOL"
             trader (sellLoop amt 0 |s.currentSqrtPrice| qs).1).2
           else (s.preToken.transfer trader "POOL" amt).2
         baseToken := (s.baseToken.transfer "POOL" trader
           ((sellLoop amt 0 |s.currentSqrtPrice| qs).2.1 -
             (sellLoop amt 0 |s.currentSqrtPrice| qs).2.1 * feePercentage)).2
         preTokenReserve := s.preTokenReserve +
           (amt - (sellLoop amt 0 |s.currentSqrtPrice| qs).1)
         baseReserve := s.baseReserve -
           (sellLoop amt 0 |s.currentSqrtPrice| qs).2.1
         currentSqrtPrice := (sellLoop amt 0 |s.currentSqrtPrice| qs).2.2 }) := by
  rw [swapPreTokenForBase, if_neg (by simp [h1]), if_neg h2, if_neg h3, hfind]

/-- Membership transport from a suffix of a sorted view to the raw position
list. -/
theorem mem_of_mem_sorted_suffix (ps : List LPPosition)
    (sorted qs : List LPPosition) (hperm : sorted.Perm ps)
    (hsub : qs.Sublist sorted) : ∀ p ∈ qs, p ∈ ps :=
  fun p hp => hperm.mem_iff.mp (hsub.mem hp)

theorem sortByLowerAsc_perm (ps : List LPPosition) :
    (sortByLowerAsc ps).Perm ps :=
  List.perm_insertionSort _ ps

theorem sortByUpperDesc_perm (ps : List LPPosition) :
    (sortByUpperDesc ps).Perm ps :=
  List.perm_insertionSort _ ps

/-- Counterexample to claim C2 as stated: with a nested pair of ranges
(`[1,16]` holding liquidity 4 and `[4,9]` holding liquidity 6) and the price
starting at `12.25` (sqrt `7/2`), a successful `swapBaseForPreToken` ends
with `currentSqrtPrice = 3 < 7/2`: the buy swap *decreased* the price. -/
theorem swap_price_monotone_cex :
    (addLiquidity "LP" 3 1 4 nestedBuyPool0).1.isOk = true
    ∧ (addLiquidity "LP" 1 2 3 nestedBuyPool1).1.isOk = true
    ∧ nestedBuyPool2.currentSqrtPrice = 7 / 2
    ∧ (swapBaseForPreToken "T" 3 nestedBuyPool2).1.isOk = true
    ∧ (swapBaseForPreToken "T" 3 nestedBuyPool2).2.currentSqrtPrice = 3 := by
  norm_num [nestedBuyPool2, nestedBuyPool1, nestedBuyPool0, addLiquidity,
    swapBaseForPreToken, calculatePreTokenAmount, calculateLiquidity,
    mkLiquidityPool, tokenOf, emptyToken, Token.mint, Token.balanceOf,
    Token.transfer, Token.setBalance, getCurrentPrice, findStartBuy,
    findFirstSuffix, sortByLowerAsc, List.insertionSort, List.orderedInsert,
    buyLoop, feePercentage, LPPosition.lowerPriceBound,
    LPPosition.upperPriceBound, Except.isOk, Except.toBool, str_ne_T_POOL,
    str_ne_POOL_T, str_ne_LP_POOL, str_ne_POOL_LP, str_ne_T_LP, str_ne_LP_T,
    abs_of_pos (show (0 : ℚ) < 7 / 2 by norm_num), max_def, min_def]

/-- Claim C2 (amended): price monotonicity holds for pools without nested
ranges.  If every position is valid, the current sqrt price is nonnegative,
upper bounds are nondecreasing along the buy-side sorted order and lower
bounds are nonincreasing along the sell-side sorted order, then a successful
`swapBaseForPreToken` never decreases `currentSqrtPrice` and a successful
`swapPreTokenForBase` never increases it. -/
theorem swap_price_monotone_without_nesting (s : LiquidityPool)
    (trader : String) (amt : ℚ)
    (hval : ∀ p ∈ s.lpPositions, ValidPosition p)
    (hc : 0 ≤ s.currentSqrtPrice)
    (hbuyChain : (sortByLowerAsc s.lpPositions).Pairwise
      (fun a b => a.upperSqrtBound ≤ b.upperSqrtBound))
    (hsellChain : (sortByUpperDesc s.lpPositions).Pairwise
      (fun a b => b.lowerSqrtBound ≤ a.lowerSqrtBound)) :
    ((swapBaseForPreToken trader amt s).1.isOk = true →
      s.currentSqrtPrice ≤
        (swapBaseForPreToken trader amt s).2.currentSqrtPrice)
    ∧ ((swapPreTokenForBase trader amt s).1.isOk = true →
      (swapPreTokenForBase trader amt s).2.currentSqrtPrice ≤
        s.currentSqrtPrice) := by
  constructor
  · intro hok
    obtain ⟨h1, h2, h3, qs, hfind⟩ := swapBuy_isOk trader amt s hok
    rw [swapBuy_state trader amt s qs h1 (not_le.mpr h2) (not_lt.mpr h3) hfind]
    obtain ⟨hsub, p0, rest0, rfl, hstart⟩ :=
      findStartBuy_some _ _ _ hfind
    have hvalq : ∀ p ∈ p0 :: rest0, ValidPosition p :=
      fun p hp => hval p
        (mem_of_mem_sorted_suffix s.lpPositions _ _
          (sortByLowerAsc_perm s.lpPositions) hsub p hp)
    obtain ⟨hp0l, hp0lu, -⟩ := hvalq p0 (List.mem_cons_self p0 rest0)
    have hp0u : 0 < p0.upperSqrtBound := lt_of_lt_of_le hp0l hp0lu
    have hhead0 : |s.currentSqrtPrice| ≤ |p0.upperSqrtBound| := by
      rcases hstart with ⟨-, hu⟩ | habove
      · exact abs_le_abs_of_mul_self_le hu
      · refine (abs_le_abs_of_mul_self_le habove.le).trans ?_
        rw [abs_of_pos hp0l, abs_of_pos hp0u]
        exact hp0lu
    have hmono := buyLoop_mono (p0 :: rest0) (amt - amt * feePercentage) 0
      |s.currentSqrtPrice| hvalq (abs_nonneg _)
      (fun p hp => by
        simp only [List.head?_cons, Option.some_inj] at hp
        rw [← hp]
        exact hhead0)
      (List.Pairwise.sublist hsub hbuyChain)
    exact (le_abs_self _).trans hmono
  · intro hok
    obtain ⟨h1, h2, h3, qs, hfind⟩ := swapSell_isOk trader amt s hok
    rw [swapSell_state trader amt s qs h1 (not_le.mpr h2) (not_lt.mpr h3) hfind]
    obtain ⟨hsub, p0, rest0, rfl, hstart⟩ :=
      findStartSell_some _ _ _ hfind
    have hvalq : ∀ p ∈ p0 :: rest0, ValidPosition p :=
      fun p hp => hval p
        (mem_of_mem_sorted_suffix s.lpPositions _ _
          (sortByUpperDesc_perm s.lpPositions) hsub p hp)
    obtain ⟨hp0l, hp0lu, -⟩ := hvalq p0 (List.mem_cons_self p0 rest0)
    have hp0u : 0 < p0.upperSqrtBound := lt_of_lt_of_le hp0l hp0lu
    have hhead0 : |p0.lowerSqrtBound| ≤ |s.currentSqrtPrice| := by
      rcases hstart with ⟨hl, -⟩ | hbelow
      · exact abs_le_abs_of_mul_self_le hl
      · refine le_trans ?_ (abs_le_abs_of_mul_self_le hbelow.le)
        rw [abs_of_pos hp0l, abs_of_pos hp0u]
        exact hp0lu
    have hcpos : 0 < |s.currentSqrtPrice| :=
      lt_of_lt_of_le (abs_pos.mpr hp0l.ne') hhead0
    have hmono := sellLoop_mono (p0 :: rest0) amt 0
      |s.currentSqrtPrice| hvalq hcpos
      (fun p hp => by
        simp only [List.head?_cons, Option.some_inj] at hp
        rw [← hp]
        exact hhead0)
      (List.Pairwise.sublist hsub hsellChain)
    exact hmono.trans (le_of_eq (abs_of_nonneg hc))

/-- Witness for the amended C2 on a single-position pool: a buy moves the
sqrt price up from `3/2`, a sell moves it down. -/
theorem swap_price_monotone_without_nesting_witness :
    singleRangePool.currentSqrtPrice ≤
      (swapBaseForPreToken "T" 1 singleRangePool).2.currentSqrtPrice
    ∧ (swapPreTokenForBase "T" 1 singleRangePool).2.currentSqrtPrice ≤
      singleRangePool.currentSqrtPrice := by
  have hval : ∀ p ∈ singleRangePool.lpPositions, ValidPosition p := by
    intro p hp
    have : singleRangePool.lpPositions =
        [{ id := "LP-1", owner := "LP", liquidity := 2, lowerSqrtBound := 1,
           upperSqrtBound := 2, collateralAmount := 1,
           initialPreTokenAmount := 2 }] := by
      norm_num [singleRangePool, addLiquidity, calculatePreTokenAmount,
        calculateLiquidity, mkLiquidityPool, tokenOf, Token.mint,
        Token.balanceOf, Token.transfer, Token.setBalance, str_ne_T_POOL,
        str_ne_POOL_T, str_ne_LP_POOL, str_ne_POOL_LP, str_ne_T_LP,
        str_ne_LP_T, show "LP-" ++ toString (1 : ℕ) = "LP-1" from rfl]
    rw [this] at hp
    simp at hp
    rw [hp]
    refine ⟨by norm_num, by norm_num, by norm_num⟩
  have h := swap_price_monotone_without_nesting singleRangePool "T" 1 hval
    (by norm_num [singleRangePool, addLiquidity, calculatePreTokenAmount,
      calculateLiquidity, mkLiquidityPool, tokenOf, Token.mint,
      Token.balanceOf, Token.transfer, Token.setBalance, str_ne_T_POOL,
      str_ne_POOL_T, str_ne_LP_POOL, str_ne_POOL_LP, str_ne_T_LP,
      str_ne_LP_T])
    (by norm_num [singleRangePool, addLiquidity, calculatePreTokenAmount,
      calculateLiquidity, mkLiquidityPool, tokenOf, Token.mint,
      Token.balanceOf, Token.transfer, Token.setBalance, sortByLowerAsc,
      List.insertionSort, List.orderedInsert, str_ne_T_POOL, str_ne_POOL_T,
      str_ne_LP_POOL, str_ne_POOL_LP, str_ne_T_LP, str_ne_LP_T])
    (by norm_num [singleRangePool, addLiquidity, calculatePreTokenAmount,
      calculateLiquidity, mkLiquidityPool, tokenOf, Token.mint,
      Token.balanceOf, Token.transfer, Token.setBalance, sortByUpperDesc,
      List.insertionSort, List.orderedInsert, str_ne_T_POOL, str_ne_POOL_T,
      str_ne_LP_POOL, str_ne_POOL_LP, str_ne_T_LP, str_ne_LP_T])
  refine ⟨h.1 ?_, h.2 ?_⟩ <;>
    norm_num [singleRangePool, addLiquidity, calculatePreTokenAmount,
      calculateLiquidity, mkLiquidityPool, tokenOf, emptyToken, Token.mint,
      Token.balanceOf, Token.transfer, Token.setBalance, swapBaseForPreToken,
      swapPreTokenForBase, getCurrentPrice, findStartBuy, findStartSell,
      findFirstSuffix, sortByLowerAsc, sortByUpperDesc, List.insertionSort,
      List.orderedInsert, buyLoop, sellLoop, feePercentage,
      LPPosition.lowerPriceBound, LPPosition.upperPriceBound, Except.isOk,
      Except.toBool, str_ne_T_POOL, str_ne_POOL_T, str_ne_LP_POOL,
      str_ne_POOL_LP, str_ne_T_LP, str_ne_LP_T]

/-- The buy loop never drives the remaining input below zero: each range
consumes at most `remaining` (`effective ≤ clamped + remaining / L`). -/
theorem buyLoop_remaining_nonneg (ps : List LPPosition) :
    ∀ remaining totalOut newSqrt : ℚ,
      (∀ p ∈ ps, 0 < p.liquidity) → 0 ≤ remaining →
      0 ≤ (buyLoop remaining totalOut newSqrt ps).1 := by
  induction ps with
  | nil => intro rem tot ns _ h; simpa [buyLoop] using h
  | cons p rest ih =>
    intro rem tot ns hval hrem
    simp only [buyLoop]
    by_cases hr : rem ≤ 0
    · rw [if_pos hr]; exact hrem
    rw [if_neg hr]
    have hL := hval p (List.mem_cons_self p rest)
    set c := max ns |p.lowerSqrtBound| with hcdef
    set e := min (c + rem / p.liquidity) |p.upperSqrtBound| with hedef
    have he_le : e ≤ c + rem / p.liquidity := min_le_left _ _
    have hused : p.liquidity * (e - c) ≤ rem := by
      have h1 : e - c ≤ rem / p.liquidity := by linarith
      calc p.liquidity * (e - c) ≤ p.liquidity * (rem / p.liquidity) :=
            mul_le_mul_of_nonneg_left h1 hL.le
        _ = rem := by
            rw [mul_comm, div_mul_cancel₀ rem hL.ne']
    have hrem' : 0 ≤ rem - p.liquidity * (e - c) := by linarith
    by_cases hbreak : e < |p.upperSqrtBound|
    · rw [if_pos hbreak]; exact hrem'
    · rw [if_neg hbreak]
      exact ih _ _ _ (fun q hq => hval q (List.mem_cons_of_mem p hq)) hrem'

/-- Counterexample to claim C8 as stated: on the nested-range pool reached by
two `addLiquidity` calls, a *successful* `swapPreTokenForBase` computes a
negative total base output (`-4`), its payout transfer silently fails, and
the POOL-balance-minus-baseReserve gap drops from 4 to 0. -/
theorem pool_gap_decrease_cex :
    (addLiquidity "LP" 3 1 4 nestedSellPool0).1.isOk = true
    ∧ (addLiquidity "LP" 1 2 3 nestedSellPool1).1.isOk = true
    ∧ (swapPreTokenForBase "T" 2 nestedSellPool2).1.isOk = true
    ∧ poolGap nestedSellPool2 = 4
    ∧ poolGap (swapPreTokenForBase "T" 2 nestedSellPool2).2 = 0
    ∧ poolGap (swapPreTokenForBase "T" 2 nestedSellPool2).2 <
        poolGap nestedSellPool2 := by
  norm_num [nestedSellPool2, nestedSellPool1, nestedSellPool0, addLiquidity,
    swapPreTokenForBase, calculatePreTokenAmount, calculateLiquidity,
    mkLiquidityPool, tokenOf, emptyToken, Token.mint, Token.balanceOf,
    Token.transfer, Token.setBalance, getCurrentPrice, findStartSell,
    findFirstSuffix, sortByUpperDesc, List.insertionSort, List.orderedInsert,
    sellLoop, feePercentage, LPPosition.lowerPriceBound,
    LPPosition.upperPriceBound, Except.isOk, Except.toBool, poolGap,
    str_ne_T_POOL, str_ne_POOL_T, str_ne_LP_POOL, str_ne_POOL_LP,
    str_ne_T_LP, str_ne_LP_T,
    abs_of_pos (show (0 : ℚ) < 3 / 2 by norm_num), max_def, min_def]

/-- Claim C8 (amended): for calls by accounts other than POOL, whenever the
base-token transfers out of the POOL account that an operation attempts
actually succeed, the gap `POOL base balance - baseReserve` never decreases:
a successful `addLiquidity` raises it by exactly `baseAmount` (the
collateral), a successful `swapBaseForPreToken` by exactly the input fee
`baseAmountIn · 0.003`, and a successful `swapPreTokenForBase` by exactly the
output fee `totalBaseTokenOutput · 0.003`. -/
theorem pool_gap_deltas :
    (∀ (s : LiquidityPool) (owner : String) (x sa sb : ℚ), owner ≠ "POOL" →
      (addLiquidity owner x sa sb s).1.isOk = true →
      poolGap (addLiquidity owner x sa sb s).2 = poolGap s + x ∧
        poolGap s ≤ poolGap (addLiquidity owner x sa sb s).2)
    ∧ (∀ (s : LiquidityPool) (trader : String) (amt : ℚ)
        (qs : List LPPosition), trader ≠ "POOL" →
      (∀ p ∈ s.lpPositions, 0 < p.liquidity) →
      (swapBaseForPreToken trader amt s).1.isOk = true →
      findStartBuy (sortByLowerAsc s.lpPositions) (getCurrentPrice s) =
        some qs →
      (0 < (buyLoop (amt - amt * feePercentage) 0 |s.currentSqrtPrice| qs).1 →
        (buyLoop (amt - amt * feePercentage) 0 |s.currentSqrtPrice| qs).1 ≤
          s.baseToken.balanceOf "POOL" + amt) →
      poolGap (swapBaseForPreToken trader amt s).2 =
        poolGap s + amt * feePercentage ∧
        poolGap s ≤ poolGap (swapBaseForPreToken trader amt s).2)
    ∧ (∀ (s : LiquidityPool) (trader : String) (amt : ℚ)
        (qs : List LPPosition), trader ≠ "POOL" →
      (swapPreTokenForBase trader amt s).1.isOk = true →
      findStartSell (sortByUpperDesc s.lpPositions) (getCurrentPrice s) =
        some qs →
      0 < (sellLoop amt 0 |s.currentSqrtPrice| qs).2.1 -
        (sellLoop amt 0 |s.currentSqrtPrice| qs).2.1 * feePercentage →
      (sellLoop amt 0 |s.currentSqrtPrice| qs).2.1 -
        (sellLoop amt 0 |s.currentSqrtPrice| qs).2.1 * feePercentage ≤
        s.baseToken.balanceOf "POOL" →
      poolGap (swapPreTokenForBase trader amt s).2 =
        poolGap s + (sellLoop amt 0 |s.currentSqrtPrice| qs).2.1 *
          feePercentage ∧
        poolGap s ≤ poolGap (swapPreTokenForBase trader amt s).2) := by
  refine ⟨?_, ?_, ?_⟩
  · intro s owner x sa sb hownPool hok
    obtain ⟨h1, hx, hbal, preAmt, liqAmt, hpre, hliq, heq⟩ :=
      addLiquidity_ok owner x sa sb s hok
    have hcond : ¬ (x * 2 ≤ 0 ∨ s.baseToken.balanceOf owner < x * 2) :=
      not_or.mpr ⟨not_le.mpr (by linarith), not_lt.mpr hbal⟩
    have hgap : poolGap (addLiquidity owner x sa sb s).2 = poolGap s + x := by
      rw [heq]
      simp only [poolGap]
      rw [transfer_dst_balance _ _ _ _ hownPool hcond]
      ring
    exact ⟨hgap, by rw [hgap]; linarith⟩
  · intro s trader amt qs htrader hliq hok hfind hrefund
    obtain ⟨h1, h2, h3, -⟩ := swapBuy_isOk trader amt s hok
    set r := buyLoop (amt - amt * feePercentage) 0 |s.currentSqrtPrice| qs
      with hrdef
    obtain ⟨hsub, -⟩ := findStartBuy_some _ _ _ hfind
    have hliqq : ∀ p ∈ qs, 0 < p.liquidity := fun p hp =>
      hliq p (mem_of_mem_sorted_suffix _ _ _ (sortByLowerAsc_perm _) hsub p hp)
    have hA : 0 ≤ amt - amt * feePercentage := by
      rw [feePercentage]; linarith
    have hrnn : 0 ≤ r.1 := by
      rw [hrdef]
      exact buyLoop_remaining_nonneg qs _ 0 _ hliqq hA
    have htb : ((s.baseToken.transfer trader "POOL" amt).2).balanceOf "POOL" =
        s.baseToken.balanceOf "POOL" + amt :=
      transfer_dst_balance _ _ _ _ htrader
        (not_or.mpr ⟨not_le.mpr h2, not_lt.mpr h3⟩)
    have hgap : poolGap (swapBaseForPreToken trader amt s).2 =
        poolGap s + amt * feePercentage := by
      rw [swapBuy_state trader amt s qs h1 (not_le.mpr h2) (not_lt.mpr h3)
        hfind]
      dsimp only [poolGap]
      rw [← hrdef]
      by_cases hr : 0 < r.1
      · have hcover : ¬ ((s.baseToken.transfer trader "POOL" amt).2).balanceOf
            "POOL" < r.1 := by
          rw [htb]
          exact not_lt.mpr (hrefund hr)
        rw [if_pos hr]
        rw [transfer_src_balance _ _ _ _ (Ne.symm htrader)
          (not_or.mpr ⟨not_le.mpr hr, hcover⟩)]
        rw [htb]
        ring
      · rw [if_neg hr]
        have hr0 : r.1 = 0 := le_antisymm (not_lt.mp hr) hrnn
        rw [htb, hr0]
        ring
    refine ⟨hgap, ?_⟩
    rw [hgap]
    have : 0 ≤ amt * feePercentage := by
      rw [feePercentage]; positivity
    linarith
  · intro s trader amt qs htrader hok hfind hpos hcov
    obtain ⟨h1, h2, h3, -⟩ := swapSell_isOk trader amt s hok
    set out := (sellLoop amt 0 |s.currentSqrtPrice| qs).2.1 with houtdef
    have hbt : (s.baseToken.transfer "POOL" trader
        (out - out * feePercentage)).2.balanceOf "POOL" =
        s.baseToken.balanceOf "POOL" - (out - out * feePercentage) :=
      transfer_src_balance _ _ _ _ (Ne.symm htrader)
        (not_or.mpr ⟨not_le.mpr hpos, not_lt.mpr hcov⟩)
    have hgap : poolGap (swapPreTokenForBase trader amt s).2 =
        poolGap s + out * feePercentage := by
      rw [swapSell_state trader amt s qs h1 (not_le.mpr h2) (not_lt.mpr h3)
        hfind]
      dsimp only [poolGap]
      rw [← houtdef, hbt]
      ring
    refine ⟨hgap, ?_⟩
    rw [hgap]
    have hout : 0 < out := by
      by_contra hno
      push_neg at hno
      have : out - out * feePercentage ≤ 0 := by
        rw [feePercentage]; nlinarith
      linarith
    have : 0 < out * feePercentage := by
      rw [feePercentage]; positivity
    linarith

/-- Witness for the amended C8: the first `addLiquidity` on the concrete
nested-sell pool raises the gap by exactly its base amount 3. -/
theorem pool_gap_deltas_witness :
    poolGap (addLiquidity "LP" 3 1 4 nestedSellPool0).2 =
      poolGap nestedSellPool0 + 3 :=
  (pool_gap_deltas.1 nestedSellPool0 "LP" 3 1 4 (by decide)
    (by norm_num [nestedSellPool0, addLiquidity, calculatePreTokenAmount,
      calculateLiquidity, mkLiquidityPool, tokenOf, Token.mint,
      Token.balanceOf, Token.transfer, Token.setBalance, Except.isOk,
      Except.toBool, str_ne_T_POOL, str_ne_POOL_T, str_ne_LP_POOL,
      str_ne_POOL_LP, str_ne_T_LP, str_ne_LP_T])).1

theorem swapBuy_settled (trader : String) (amt : ℚ) (s : LiquidityPool)
    (h : s.isSettlementPhase = true) :
    swapBaseForPreToken trader amt s = (.error .settlementPhaseViolation, s) := by
  rw [swapBaseForPreToken, if_pos h]

theorem swapBuy_nonpos (trader : String) (amt : ℚ) (s : LiquidityPool)
    (h1 : ¬ s.isSettlementPhase = true) (h2 : amt ≤ 0) :
    swapBaseForPreToken trader amt s = (.error .nonPositiveAmount, s) := by
  rw [swapBaseForPreToken, if_neg h1, if_pos h2]

theorem swapBuy_insufficient (trader : String) (amt : ℚ) (s : LiquidityPool)
    (h1 : ¬ s.isSettlementPhase = true) (h2 : ¬ amt ≤ 0)
    (h3 : s.baseToken.balanceOf trader < amt) :
    swapBaseForPreToken trader amt s = (.error .insufficientBalance, s) := by
  rw [swapBaseForPreToken, if_neg h1, if_neg h2, if_pos h3]

theorem swapBuy_noliq (trader : String) (amt : ℚ) (s : LiquidityPool)
    (h1 : ¬ s.isSettlementPhase = true) (h2 : ¬ amt ≤ 0)
    (h3 : ¬ s.baseToken.balanceOf trader < amt)
    (hfind : findStartBuy (sortByLowerAsc s.lpPositions) (getCurrentPrice s) =
      none) :
    swapBaseForPreToken trader amt s = (.error .noLiquidityAvailable,
      { s with baseToken := (s.baseToken.transfer trader "POOL" amt).2 }) := by
  rw [swapBaseForPreToken, if_neg h1, if_neg h2, if_neg h3, hfind]

theorem swapSell_settled (trader : String) (amt : ℚ) (s : LiquidityPool)
    (h : s.isSettlementPhase = true) :
    swapPreTokenForBase trader amt s = (.error .settlementPhaseViolation, s) := by
  rw [swapPreTokenForBase, if_pos h]

theorem swapSell_nonpos (trader : String) (amt : ℚ) (s : LiquidityPool)
    (h1 : ¬ s.isSettlementPhase = true) (h2 : amt ≤ 0) :
    swapPreTokenForBase trader amt s = (.error .nonPositiveAmount, s) := by
  rw [swapPreTokenForBase, if_neg h1, if_pos h2]

theorem swapSell_insufficient (trader : String) (amt : ℚ) (s : LiquidityPool)
    (h1 : ¬ s.isSettlementPhase = true) (h2 : ¬ amt ≤ 0)
    (h3 : s.preToken.balanceOf trader < amt) :
    swapPreTokenForBase trader amt s = (.error .insufficientBalance, s) := by
  rw [swapPreTokenForBase, if_neg h1, if_neg h2, if_pos h3]

theorem swapSell_noliq (trader : String) (amt : ℚ) (s : LiquidityPool)
    (h1 : ¬ s.isSettlementPhase = true) (h2 : ¬ amt ≤ 0)
    (h3 : ¬ s.preToken.balanceOf trader < amt)
    (hfind : findStartSell (sortByUpperDesc s.lpPositions) (getCurrentPrice s) =
      none) :
    swapPreTokenForBase trader amt s = (.error .noLiquidityAvailable,
      { s with preToken := (s.preToken.transfer trader "POOL" amt).2 }) := by
  rw [swapPreTokenForBase, if_neg h1, if_neg h2, if_neg h3, hfind]

/-- Claim C9: the pool ignores every ledger boolean result, so a swap's
`Except` result and the post-state reserves and price are a function of the
pool core (positions, price, reserves, phase) and the trader's balance alone.
Two states that agree on those — but may differ arbitrarily in the POOL
account's (or any other account's) token balances, so that a ledger transfer
may silently fail in one and succeed in the other — give the same output and
the same post reserves and price. -/
theorem swap_deterministic_in_pool_balances (s₁ s₂ : LiquidityPool)
    (trader : String) (amt : ℚ)
    (hpos : s₁.lpPositions = s₂.lpPositions)
    (hsqrt : s₁.currentSqrtPrice = s₂.currentSqrtPrice)
    (hbase : s₁.baseReserve = s₂.baseReserve)
    (hpre : s₁.preTokenReserve = s₂.preTokenReserve)
    (hphase : s₁.isSettlementPhase = s₂.isSettlementPhase)
    (hbb : s₁.baseToken.balanceOf trader = s₂.baseToken.balanceOf trader)
    (hpb : s₁.preToken.balanceOf trader = s₂.preToken.balanceOf trader) :
    ((swapBaseForPreToken trader amt s₁).1 =
        (swapBaseForPreToken trader amt s₂).1
      ∧ swapObservables (swapBaseForPreToken trader amt s₁).2 =
        swapObservables (swapBaseForPreToken trader amt s₂).2)
    ∧ ((swapPreTokenForBase trader amt s₁).1 =
        (swapPreTokenForBase trader amt s₂).1
      ∧ swapObservables (swapPreTokenForBase trader amt s₁).2 =
        swapObservables (swapPreTokenForBase trader amt s₂).2) := by
  have hgc : getCurrentPrice s₁ = getCurrentPrice s₂ := by
    rw [getCurrentPrice, getCurrentPrice, hsqrt]
  have hobs : swapObservables s₁ = swapObservables s₂ := by
    rw [swapObservables, swapObservables, hbase, hpre, hsqrt]
  have hfindB : findStartBuy (sortByLowerAsc s₁.lpPositions)
      (getCurrentPrice s₁) =
      findStartBuy (sortByLowerAsc s₂.lpPositions) (getCurrentPrice s₂) := by
    rw [hpos, hgc]
  have hfindS : findStartSell (sortByUpperDesc s₁.lpPositions)
      (getCurrentPrice s₁) =
      findStartSell (sortByUpperDesc s₂.lpPositions) (getCurrentPrice s₂) := by
    rw [hpos, hgc]
  constructor
  · by_cases h1 : s₂.isSettlementPhase = true
    · rw [swapBuy_settled trader amt s₁ (hphase.trans h1),
        swapBuy_settled trader amt s₂ h1]
      exact ⟨rfl, hobs⟩
    have h1' : ¬ s₁.isSettlementPhase = true := by rw [hphase]; exact h1
    by_cases h2 : amt ≤ 0
    · rw [swapBuy_nonpos trader amt s₁ h1' h2, swapBuy_nonpos trader amt s₂ h1 h2]
      exact ⟨rfl, hobs⟩
    by_cases h3 : s₂.baseToken.balanceOf trader < amt
    · rw [swapBuy_insufficient trader amt s₁ h1' h2 (by rw [hbb]; exact h3),
        swapBuy_insufficient trader amt s₂ h1 h2 h3]
      exact ⟨rfl, hobs⟩
    have h3' : ¬ s₁.baseToken.balanceOf trader < amt := by
      rw [hbb]; exact h3
    rcases hfind : findStartBuy (sortByLowerAsc s₂.lpPositions)
        (getCurrentPrice s₂) with _ | qs
    · rw [swapBuy_noliq trader amt s₁ h1' h2 h3' (hfindB.trans hfind),
        swapBuy_noliq trader amt s₂ h1 h2 h3 hfind]
      exact ⟨rfl, hobs⟩
    · rw [swapBuy_state trader amt s₁ qs (by simpa using h1') h2 h3'
        (hfindB.trans hfind),
        swapBuy_state trader amt s₂ qs (by simpa using h1) h2 h3 hfind]
      rw [hsqrt, hbase, hpre]
      exact ⟨rfl, rfl⟩
  · by_cases h1 : s₂.isSettlementPhase = true
    · rw [swapSell_settled trader amt s₁ (hphase.trans h1),
        swapSell_settled trader amt s₂ h1]
      exact ⟨rfl, hobs⟩
    have h1' : ¬ s₁.isSettlementPhase = true := by rw [hphase]; exact h1
    by_cases h2 : amt ≤ 0
    · rw [swapSell_nonpos trader amt s₁ h1' h2,
        swapSell_nonpos trader amt s₂ h1 h2]
      exact ⟨rfl, hobs⟩
    by_cases h3 : s₂.preToken.balanceOf trader < amt
    · rw [swapSell_insufficient trader amt s₁ h1' h2 (by rw [hpb]; exact h3),
        swapSell_insufficient trader amt s₂ h1 h2 h3]
      exact ⟨rfl, hobs⟩
    have h3' : ¬ s₁.preToken.balanceOf trader < amt := by
      rw [hpb]; exact h3
    rcases hfind : findStartSell (sortByUpperDesc s₂.lpPositions)
        (getCurrentPrice s₂) with _ | qs
    · rw [swapSell_noliq trader amt s₁ h1' h2 h3' (hfindS.trans hfind),
        swapSell_noliq trader amt s₂ h1 h2 h3 hfind]
      exact ⟨rfl, hobs⟩
    · rw [swapSell_state trader amt s₁ qs (by simpa using h1') h2 h3'
        (hfindS.trans hfind),
        swapSell_state trader amt s₂ qs (by simpa using h1) h2 h3 hfind]
      rw [hsqrt, hbase, hpre]
      exact ⟨rfl, rfl⟩

/-- Witness for C9: the same trades on `singleRangePool` and on its drained
variant (where the pre-token payout transfer silently fails) return the same
outputs and reach the same reserves and price. -/
theorem swap_deterministic_in_pool_balances_witness :
    ((swapBaseForPreToken "T" 1 singleRangePool).1 =
      (swapBaseForPreToken "T" 1 drainedPool).1
    ∧ swapObservables (swapBaseForPreToken "T" 1 singleRangePool).2 =
      swapObservables (swapBaseForPreToken "T" 1 drainedPool).2)
    ∧ ((swapPreTokenForBase "T" 1 singleRangePool).1 =
      (swapPreTokenForBase "T" 1 drainedPool).1
    ∧ swapObservables (swapPreTokenForBase "T" 1 singleRangePool).2 =
      swapObservables (swapPreTokenForBase "T" 1 drainedPool).2) := by
  have hb : singleRangePool.baseToken.balanceOf "T" =
      drainedPool.baseToken.balanceOf "T" := by
    norm_num [singleRangePool, drainedPool, addLiquidity,
      calculatePreTokenAmount, calculateLiquidity, mkLiquidityPool, tokenOf,
      Token.mint, Token.balanceOf, Token.transfer, Token.setBalance,
      str_ne_T_POOL, str_ne_POOL_T, str_ne_LP_POOL, str_ne_POOL_LP,
      str_ne_T_LP, str_ne_LP_T]
  have hp : singleRangePool.preToken.balanceOf "T" =
      drainedPool.preToken.balanceOf "T" := by
    norm_num [singleRangePool, drainedPool, addLiquidity,
      calculatePreTokenAmount, calculateLiquidity, mkLiquidityPool, tokenOf,
      Token.mint, Token.balanceOf, Token.transfer, Token.setBalance,
      str_ne_T_POOL, str_ne_POOL_T, str_ne_LP_POOL, str_ne_POOL_LP,
      str_ne_T_LP, str_ne_LP_T]
  exact swap_deterministic_in_pool_balances singleRangePool drainedPool "T" 1
    rfl rfl rfl rfl rfl hb hp


end PreMarketAMM
